import Mathlib

/-!
Verification of the vital-signs analysis service, the pregnancy-symptoms
service and the OCR file-type validation of the mobile-patient backend.

The Python source computes with floats; here all arithmetic is exact over ℚ.
The z-score comparison `abs((v - mean)/std) > threshold` (with
`std = sqrt(variance)`, numpy population standard deviation) is rendered in
exact arithmetic through the squared z-score: for `variance > 0`,
`|v - mean| / sqrt variance > threshold ↔ (v - mean)^2 / variance > threshold^2`,
so the embedding stores the variance and compares squares; the real-valued
z-score and confidence of an anomaly record are recovered as observations
using `Real.sqrt`.
-/

namespace MPB

/-- The five vital-sign types of `models.VitalSignType`. -/
inductive VType where
  | heartRate
  | bloodPressure
  | temperature
  | spO2
  | respiratoryRate
deriving DecidableEq

/-- List of all vital-sign types. -/
def allVTypes : List VType :=
  [.heartRate, .bloodPressure, .temperature, .spO2, .respiratoryRate]

/-- A vital-sign reading (`models.VitalSign`).  Only the fields the analysis
functions read are kept: `type`, `value` and `timestamp` (as seconds, ℚ);
`id`, `secondary_value`, `notes`, `is_anomaly` and `confidence` are never
consulted by `ai_service.py`. -/
structure VitalSign where
  type : VType
  value : ℚ
  timestamp : ℚ
deriving DecidableEq

/-- Python `np.mean` of a list (sum divided by length; ℚ division by zero
yields 0 for the empty list, which every caller guards against). -/
def mean (xs : List ℚ) : ℚ := xs.sum / xs.length

/-- Python `np.std(xs)^2`: the population variance, the mean of the squared
deviations from the mean (`ddof = 0`). -/
def popVar (xs : List ℚ) : ℚ := mean (xs.map fun v => (v - mean xs) ^ 2)

/-- `self.anomaly_threshold = 2.0` in `AIAnalysisService.__init__`. -/
def anomalyThreshold : ℚ := 2

/-- Squared z-score, the exact-arithmetic form of
`z_score = abs((vs.value - mean_val) / std_val) if std_val > 0 else 0`
from `detect_anomalies`: the guard `std_val > 0` is the same as
`variance > 0`, and in that case `zScoreSq = z_score^2`. -/
def zScoreSq (v m sv : ℚ) : ℚ := if 0 < sv then (v - m) ^ 2 / sv else 0

/-- The values of a list of readings (`[vs.value for vs in signs]`). -/
def valuesOf (signs : List VitalSign) : List ℚ := signs.map fun vs => vs.value

/-- An anomaly record (`models.AnomalyDetection`).  The numeric data `value`,
`mean` and `variance` that the source interpolates into its `reason` string
and feeds into `confidence` are kept; the English message strings themselves
are not modelled. -/
structure AnomalyDetection where
  type : VType
  isAnomaly : Bool
  value : ℚ
  mean : ℚ
  variance : ℚ
deriving DecidableEq

/-- The real z-score of an anomaly record, exactly as `detect_anomalies`
computes it: `abs((value - mean)/sqrt variance)` when the standard deviation
is positive, else 0. -/
noncomputable def AnomalyDetection.zscore (a : AnomalyDetection) : ℝ :=
  if 0 < a.variance then |(a.value : ℝ) - (a.mean : ℝ)| / Real.sqrt (a.variance : ℝ) else 0

/-- The confidence of an anomaly record:
`min(z_score / self.anomaly_threshold, 1.0)`. -/
noncomputable def AnomalyDetection.confidence (a : AnomalyDetection) : ℝ :=
  min (a.zscore / 2) 1

/-- Per-type body of `detect_anomalies`: groups with fewer than 3 readings are
skipped; otherwise each reading whose z-score exceeds the threshold yields an
anomaly record. -/
def anomaliesFor (t : VType) (signs : List VitalSign) : List AnomalyDetection :=
  if signs.length < 3 then []
  else
    (signs.filter fun vs => decide (anomalyThreshold ^ 2 <
        zScoreSq vs.value (mean (valuesOf signs)) (popVar (valuesOf signs)))).map
      fun vs => { type := t, isAnomaly := true, value := vs.value,
                  mean := mean (valuesOf signs), variance := popVar (valuesOf signs) }

/-- The keys of the Python `by_type` dict in insertion order: the distinct
types of the list, ordered by first occurrence. -/
def typesInOrder (l : List VitalSign) : List VType :=
  l.foldl (fun acc vs => if vs.type ∈ acc then acc else acc ++ [vs.type]) []

/-- The group `by_type[t]`: the readings of type `t`, in list order. -/
def group (l : List VitalSign) (t : VType) : List VitalSign :=
  l.filter fun vs => decide (vs.type = t)

/-- `AIAnalysisService.detect_anomalies`: statistical anomaly detection over
the readings grouped by type. -/
def detectAnomalies (l : List VitalSign) : List AnomalyDetection :=
  (typesInOrder l).flatMap fun t => anomaliesFor t (group l t)

lemma mem_foldl_types (l : List VitalSign) (acc : List VType) (t : VType) :
    t ∈ l.foldl (fun acc vs => if vs.type ∈ acc then acc else acc ++ [vs.type]) acc ↔
      t ∈ acc ∨ ∃ vs ∈ l, vs.type = t := by
  induction l generalizing acc with
  | nil => simp
  | cons vs rest ih =>
    simp only [List.foldl_cons, ih]
    by_cases h : vs.type ∈ acc
    · simp only [if_pos h, List.mem_cons]
      aesop
    · simp only [if_neg h, List.mem_append, List.mem_singleton, List.mem_cons]
      aesop

lemma nodup_foldl_types (l : List VitalSign) (acc : List VType) (h : acc.Nodup) :
    (l.foldl (fun acc vs => if vs.type ∈ acc then acc else acc ++ [vs.type]) acc).Nodup := by
  induction l generalizing acc with
  | nil => simpa
  | cons vs rest ih =>
    simp only [List.foldl_cons]
    by_cases hm : vs.type ∈ acc
    · rw [if_pos hm]; exact ih acc h
    · rw [if_neg hm]
      exact ih _ (by simp [List.nodup_append, h, hm])

lemma mem_typesInOrder (l : List VitalSign) (t : VType) :
    t ∈ typesInOrder l ↔ ∃ vs ∈ l, vs.type = t := by
  rw [typesInOrder, mem_foldl_types]; simp

lemma nodup_typesInOrder (l : List VitalSign) : (typesInOrder l).Nodup :=
  nodup_foldl_types l [] List.nodup_nil

lemma anomaliesFor_type {t : VType} {signs : List VitalSign} {a : AnomalyDetection}
    (h : a ∈ anomaliesFor t signs) : a.type = t := by
  rw [anomaliesFor] at h
  split at h
  · simp at h
  · simp only [List.mem_map] at h
    obtain ⟨vs, _, rfl⟩ := h
    rfl

lemma filter_flatMap_type {β : Type} (typeOf : β → VType)
    (ts : List VType) (f : VType → List β) (t : VType)
    (hf : ∀ t' b, b ∈ f t' → typeOf b = t') (hnd : ts.Nodup) :
    (ts.flatMap f).filter (fun b => decide (typeOf b = t)) = if t ∈ ts then f t else [] := by
  induction ts with
  | nil => simp
  | cons t' rest ih =>
    have hnd' : rest.Nodup := hnd.of_cons
    simp only [List.flatMap_cons, List.filter_append, ih hnd']
    by_cases ht : t' = t
    · subst ht
      have h1 : (f t').filter (fun b => decide (typeOf b = t')) = f t' := by
        rw [List.filter_eq_self]
        intro a ha
        simpa using hf t' a ha
      have h2 : t' ∉ rest := by
        intro hmem
        exact (List.nodup_cons.mp hnd).1 hmem
      simp [h1, h2]
    · have h1 : (f t').filter (fun b => decide (typeOf b = t)) = [] := by
        rw [List.filter_eq_nil_iff]
        intro a ha
        simp [hf t' a ha, ht]
      rw [h1, List.nil_append]
      by_cases hm : t ∈ rest
      · rw [if_pos hm, if_pos (List.mem_cons_of_mem _ hm)]
      · have hcons : t ∉ t' :: rest := by
          intro hc
          rcases List.mem_cons.mp hc with hc | hc
          · exact ht hc.symm
          · exact hm hc
        rw [if_neg hm, if_neg hcons]

lemma zScoreSq_gt_iff (v m sv : ℚ) :
    anomalyThreshold ^ 2 < zScoreSq v m sv ↔
      0 < sv ∧ anomalyThreshold ^ 2 * sv < (v - m) ^ 2 := by
  rw [zScoreSq]
  split
  · rename_i h
    rw [lt_div_iff₀ h]
    simp [h]
  · rename_i h
    constructor
    · intro hlt
      exfalso
      have : (0 : ℚ) < anomalyThreshold ^ 2 := by norm_num [anomalyThreshold]
      linarith
    · rintro ⟨h0, _⟩
      exact absurd h0 h

lemma anomaliesFor_eq_filter (t : VType) (g : List VitalSign) :
    anomaliesFor t g =
      ((g.filter fun vs => decide (3 ≤ g.length ∧ 0 < popVar (valuesOf g) ∧
          anomalyThreshold ^ 2 * popVar (valuesOf g) < (vs.value - mean (valuesOf g)) ^ 2)).map
        fun vs => { type := t, isAnomaly := true, value := vs.value,
                    mean := mean (valuesOf g), variance := popVar (valuesOf g) }) := by
  rw [anomaliesFor]
  split
  · rename_i h
    have : (g.filter fun vs => decide (3 ≤ g.length ∧ 0 < popVar (valuesOf g) ∧
        anomalyThreshold ^ 2 * popVar (valuesOf g) < (vs.value - mean (valuesOf g)) ^ 2)) = [] := by
      rw [List.filter_eq_nil_iff]
      intro vs _
      simp only [decide_eq_true_eq, not_and]
      intro h3
      omega
    rw [this, List.map_nil]
  · rename_i h
    congr 1
    apply List.filter_congr
    intro vs _
    rw [decide_eq_decide, zScoreSq_gt_iff]
    constructor
    · rintro ⟨h0, hlt⟩
      exact ⟨by omega, h0, hlt⟩
    · rintro ⟨_, h0, hlt⟩
      exact ⟨h0, hlt⟩

lemma group_eq_nil_iff (l : List VitalSign) (t : VType) :
    group l t = [] ↔ ∀ vs ∈ l, vs.type ≠ t := by
  rw [group, List.filter_eq_nil_iff]
  simp

/-- **C1**: a call of `detect_anomalies` emits, for each type `t`, exactly one
anomaly record per reading of type `t` such that the type occurs at least 3
times, the population variance of the type's values is strictly positive
(equivalently the standard deviation is strictly positive), and the squared
deviation of the reading exceeds `threshold^2 · variance` (equivalently the
absolute z-score `|value - mean| / std` exceeds the threshold 2.0); readings
of types with fewer than 3 occurrences are never flagged (the filter
condition then fails for every reading). -/
theorem detectAnomalies_characterization (l : List VitalSign) (t : VType) :
    (detectAnomalies l).filter (fun a => decide (a.type = t)) =
      (((group l t).filter fun vs => decide (3 ≤ (group l t).length ∧
          0 < popVar (valuesOf (group l t)) ∧
          anomalyThreshold ^ 2 * popVar (valuesOf (group l t)) <
            (vs.value - mean (valuesOf (group l t))) ^ 2)).map
        fun vs => { type := t, isAnomaly := true, value := vs.value,
                    mean := mean (valuesOf (group l t)),
                    variance := popVar (valuesOf (group l t)) }) := by
  rw [detectAnomalies,
    filter_flatMap_type AnomalyDetection.type _ _ t
      (fun t' a ha => anomaliesFor_type ha) (nodup_typesInOrder l)]
  by_cases hmem : t ∈ typesInOrder l
  · rw [if_pos hmem, anomaliesFor_eq_filter]
  · rw [if_neg hmem]
    have hg : group l t = [] := by
      rw [group_eq_nil_iff]
      intro vs hvs hty
      exact hmem ((mem_typesInOrder l t).mpr ⟨vs, hvs, hty⟩)
    rw [hg]
    simp

lemma confidence_eq_one {a : AnomalyDetection} (h0 : 0 < a.variance)
    (h1 : anomalyThreshold ^ 2 * a.variance < (a.value - a.mean) ^ 2) :
    a.confidence = 1 := by
  have hvR : (0 : ℝ) < (a.variance : ℝ) := by exact_mod_cast h0
  have hsq : 0 < Real.sqrt (a.variance : ℝ) := Real.sqrt_pos.mpr hvR
  have h1Q : (4 : ℚ) * a.variance < (a.value - a.mean) ^ 2 := by
    have h4 : anomalyThreshold ^ 2 = (4 : ℚ) := by norm_num [anomalyThreshold]
    rw [h4] at h1
    exact h1
  have h1R : (4 : ℝ) * (a.variance : ℝ) < ((a.value : ℝ) - (a.mean : ℝ)) ^ 2 := by
    exact_mod_cast h1Q
  have hsqrt4 : Real.sqrt (4 * (a.variance : ℝ)) = 2 * Real.sqrt (a.variance : ℝ) := by
    rw [show (4 : ℝ) * (a.variance : ℝ) = 2 ^ 2 * (a.variance : ℝ) by ring,
      Real.sqrt_mul (by positivity), Real.sqrt_sq (by norm_num)]
  have h2 : 2 * Real.sqrt (a.variance : ℝ) < |(a.value : ℝ) - (a.mean : ℝ)| := by
    have hs : Real.sqrt (4 * (a.variance : ℝ)) <
        Real.sqrt (((a.value : ℝ) - (a.mean : ℝ)) ^ 2) :=
      Real.sqrt_lt_sqrt (by positivity) h1R
    rwa [Real.sqrt_sq_eq_abs, hsqrt4] at hs
  have hz : 2 < |(a.value : ℝ) - (a.mean : ℝ)| / Real.sqrt (a.variance : ℝ) := by
    rw [lt_div_iff₀ hsq]
    linarith
  rw [AnomalyDetection.confidence, AnomalyDetection.zscore, if_pos h0]
  have hone : (1 : ℝ) ≤ |(a.value : ℝ) - (a.mean : ℝ)| / Real.sqrt (a.variance : ℝ) / 2 := by
    linarith
  exact min_eq_right hone

/-- **C9**: every anomaly record returned by `detect_anomalies` has
`is_anomaly = True` and confidence exactly 1: a record is constructed only
when the z-score exceeds the threshold 2.0, and then
`min(z_score / 2.0, 1.0) = 1.0`. -/
theorem detectAnomalies_confidence_one (l : List VitalSign) (a : AnomalyDetection)
    (h : a ∈ detectAnomalies l) : a.isAnomaly = true ∧ a.confidence = 1 := by
  rw [detectAnomalies, List.mem_flatMap] at h
  obtain ⟨t, _, ha⟩ := h
  rw [anomaliesFor] at ha
  split at ha
  · simp at ha
  · simp only [List.mem_map] at ha
    obtain ⟨vs, hvs, rfl⟩ := ha
    have hcond := List.of_mem_filter hvs
    simp only [decide_eq_true_eq] at hcond
    obtain ⟨h0, h1⟩ := (zScoreSq_gt_iff _ _ _).mp hcond
    exact ⟨rfl, confidence_eq_one h0 h1⟩

/-- Six heart-rate readings, five equal and one outlier, whose outlier has
squared z-score 5 > 4. -/
def anomalyExampleList : List VitalSign :=
  [⟨.heartRate, 0, 0⟩, ⟨.heartRate, 0, 1⟩, ⟨.heartRate, 0, 2⟩,
   ⟨.heartRate, 0, 3⟩, ⟨.heartRate, 0, 4⟩, ⟨.heartRate, 1, 5⟩]

theorem detectAnomalies_confidence_one_witness :
    ({ type := .heartRate, isAnomaly := true, value := 1, mean := 1/6,
       variance := 5/36 } : AnomalyDetection).isAnomaly = true ∧
    ({ type := .heartRate, isAnomaly := true, value := 1, mean := 1/6,
       variance := 5/36 } : AnomalyDetection).confidence = 1 :=
  detectAnomalies_confidence_one anomalyExampleList _ (by
    norm_num [detectAnomalies, typesInOrder, group, anomaliesFor, valuesOf, mean, popVar,
      zScoreSq, anomalyThreshold, List.filter, List.foldl, List.flatMap])

/-- One step of the `latest_values` fold of `calculate_early_warning_score`:
a reading replaces the current entry for type `t` exactly when its type is `t`
and either no entry exists yet or its timestamp is strictly greater
(`vs.type not in latest_values or vs.timestamp > latest_values[vs.type].timestamp`). -/
def latestStep (t : VType) (acc : Option VitalSign) (vs : VitalSign) : Option VitalSign :=
  if vs.type = t then
    match acc with
    | none => some vs
    | some cur => if cur.timestamp < vs.timestamp then some vs else some cur
  else acc

/-- The `latest_values[t]` entry built by `calculate_early_warning_score`. -/
def latest (l : List VitalSign) (t : VType) : Option VitalSign :=
  l.foldl (latestStep t) none

lemma latestStep_skip {t : VType} {vs : VitalSign} (acc : Option VitalSign)
    (h : ¬vs.type = t) : latestStep t acc vs = acc := by
  simp [latestStep, h]

lemma latestStep_none {t : VType} {vs : VitalSign} (h : vs.type = t) :
    latestStep t none vs = some vs := by
  simp [latestStep, h]

lemma latestStep_some {t : VType} {vs cur : VitalSign} (h : vs.type = t) :
    latestStep t (some cur) vs =
      if cur.timestamp < vs.timestamp then some vs else some cur := by
  simp [latestStep, h]

lemma foldl_latestStep_spec (t : VType) (l : List VitalSign) :
    ∀ (acc : Option VitalSign) (c : VitalSign),
      l.foldl (latestStep t) acc = some c →
      (c ∈ l ∨ acc = some c) ∧
      ((∀ a, acc = some a → a.type = t) → c.type = t) ∧
      (∀ a, acc = some a → a.timestamp ≤ c.timestamp) ∧
      (∀ w ∈ l, w.type = t → w.timestamp ≤ c.timestamp) := by
  induction l with
  | nil =>
    intro acc c h
    simp only [List.foldl_nil] at h
    refine ⟨Or.inr h, fun hacc => hacc c h, fun a ha => ?_, by simp⟩
    rw [ha] at h
    injection h with h2
    rw [h2]
  | cons w rest ih =>
    intro acc c h
    rw [List.foldl_cons] at h
    by_cases hty : w.type = t
    · cases acc with
      | none =>
        rw [latestStep_none hty] at h
        obtain ⟨hmem, htype, hge, hall⟩ := ih (some w) c h
        refine ⟨?_, fun _ => ?_, by simp, ?_⟩
        · rcases hmem with hm | hm
          · exact Or.inl (List.mem_cons_of_mem _ hm)
          · injection hm with hm
            exact Or.inl (by rw [← hm]; exact List.mem_cons_self _ _)
        · exact htype (fun a ha => by injection ha with ha; rw [← ha]; exact hty)
        · intro u hu hut
          rcases List.mem_cons.mp hu with rfl | hu
          · exact hge u rfl
          · exact hall u hu hut
      | some cur =>
        rw [latestStep_some hty] at h
        by_cases hts : cur.timestamp < w.timestamp
        · rw [if_pos hts] at h
          obtain ⟨hmem, htype, hge, hall⟩ := ih (some w) c h
          have hwc : w.timestamp ≤ c.timestamp := hge w rfl
          refine ⟨?_, fun _ => ?_, ?_, ?_⟩
          · rcases hmem with hm | hm
            · exact Or.inl (List.mem_cons_of_mem _ hm)
            · injection hm with hm
              exact Or.inl (by rw [← hm]; exact List.mem_cons_self _ _)
          · exact htype (fun a ha => by injection ha with ha; rw [← ha]; exact hty)
          · intro a ha
            injection ha with ha
            rw [← ha]
            exact le_trans (le_of_lt hts) hwc
          · intro u hu hut
            rcases List.mem_cons.mp hu with rfl | hu
            · exact hwc
            · exact hall u hu hut
        · rw [if_neg hts] at h
          obtain ⟨hmem, htype, hge, hall⟩ := ih (some cur) c h
          have hcc : cur.timestamp ≤ c.timestamp := hge cur rfl
          refine ⟨?_, fun hacc => ?_, ?_, ?_⟩
          · rcases hmem with hm | hm
            · exact Or.inl (List.mem_cons_of_mem _ hm)
            · exact Or.inr hm
          · exact htype (fun a ha => by injection ha with ha; rw [← ha]; exact hacc cur rfl)
          · intro a ha
            injection ha with ha
            rw [← ha]
            exact hcc
          · intro u hu hut
            rcases List.mem_cons.mp hu with rfl | hu
            · exact le_trans (le_of_not_lt hts) hcc
            · exact hall u hu hut
    · rw [latestStep_skip _ hty] at h
      obtain ⟨hmem, htype, hge, hall⟩ := ih acc c h
      refine ⟨?_, htype, hge, ?_⟩
      · rcases hmem with hm | hm
        · exact Or.inl (List.mem_cons_of_mem _ hm)
        · exact Or.inr hm
      · intro u hu hut
        rcases List.mem_cons.mp hu with rfl | hu
        · exact absurd hut hty
        · exact hall u hu hut

lemma foldl_latestStep_isSome (t : VType) (l : List VitalSign) :
    ∀ (acc : Option VitalSign),
      ((∃ a, acc = some a) ∨ ∃ w ∈ l, w.type = t) →
      ∃ c, l.foldl (latestStep t) acc = some c := by
  induction l with
  | nil =>
    intro acc h
    rcases h with ⟨a, ha⟩ | ⟨w, hw, _⟩
    · exact ⟨a, ha⟩
    · simp at hw
  | cons w rest ih =>
    intro acc h
    rw [List.foldl_cons]
    apply ih
    rcases h with ⟨a, ha⟩ | ⟨u, hu, hut⟩
    · left
      rw [ha]
      by_cases hty : w.type = t
      · rw [latestStep_some hty]
        by_cases hts : a.timestamp < w.timestamp
        · exact ⟨w, by rw [if_pos hts]⟩
        · exact ⟨a, by rw [if_neg hts]⟩
      · exact ⟨a, latestStep_skip _ hty⟩
    · rcases List.mem_cons.mp hu with rfl | hu
      · left
        cases acc with
        | none => exact ⟨u, latestStep_none hut⟩
        | some cur =>
          rw [latestStep_some hut]
          by_cases hts : cur.timestamp < u.timestamp
          · exact ⟨u, by rw [if_pos hts]⟩
          · exact ⟨cur, by rw [if_neg hts]⟩
      · exact Or.inr ⟨u, hu, hut⟩

lemma latest_isSome (l : List VitalSign) (t : VType) (vs : VitalSign)
    (hvs : vs ∈ l) (hty : vs.type = t) : ∃ c, latest l t = some c := by
  rw [latest]
  exact foldl_latestStep_isSome t l none (Or.inr ⟨vs, hvs, hty⟩)

/-- The per-type threshold tables of `calculate_early_warning_score`: the
points contributed by the latest value of each vital-sign type. -/
def scoreFor : VType → ℚ → ℕ
  | .heartRate, v =>
      if v < 40 ∨ 130 < v then 3 else if v < 50 ∨ 110 < v then 2
      else if v < 60 ∨ 100 < v then 1 else 0
  | .bloodPressure, v =>
      if v < 70 ∨ 200 < v then 3 else if v < 90 ∨ 160 < v then 2
      else if v < 100 ∨ 140 < v then 1 else 0
  | .temperature, v =>
      if v < 35 ∨ 39 < v then 3 else if v < 36 ∨ 38 < v then 2
      else if v < 36.5 ∨ 37.5 < v then 1 else 0
  | .spO2, v =>
      if v < 85 then 3 else if v < 90 then 2 else if v < 95 then 1 else 0
  | .respiratoryRate, v =>
      if v < 8 ∨ 25 < v then 3 else if v < 12 ∨ 20 < v then 2
      else if v < 14 ∨ 18 < v then 1 else 0

/-- The score contribution of one vital-sign type: 0 when no reading of the
type exists, otherwise the table applied to the latest value. -/
def typeScore (l : List VitalSign) (t : VType) : ℕ :=
  match latest l t with
  | none => 0
  | some vs => scoreFor t vs.value

/-- The result of `calculate_early_warning_score` (`models.EarlyWarningScore`);
the `factors` strings and the wall-clock `timestamp` are not modelled. -/
structure EarlyWarningScore where
  score : ℕ
  riskLevel : String
  recommendations : List String
deriving DecidableEq

def criticalRecs : List String :=
  ["Immediate medical attention required", "Consider emergency response",
   "Continuous monitoring essential"]

def highRecs : List String :=
  ["Close monitoring required", "Consider escalation to senior staff",
   "Review medication and treatment"]

def mediumRecs : List String :=
  ["Increased monitoring frequency", "Review vital signs trends",
   "Consider intervention"]

def lowRecs : List String :=
  ["Continue routine monitoring", "Maintain current care plan"]

/-- The risk-level / recommendations branch of
`calculate_early_warning_score`, as a function of the accumulated score. -/
def mkEWS (s : ℕ) : EarlyWarningScore :=
  if 7 ≤ s then ⟨s, "critical", criticalRecs⟩
  else if 5 ≤ s then ⟨s, "high", highRecs⟩
  else if 3 ≤ s then ⟨s, "medium", mediumRecs⟩
  else ⟨s, "low", lowRecs⟩

/-- `AIAnalysisService.calculate_early_warning_score`: the five per-type
blocks each add their table's points to the score, then the risk level and
recommendations are chosen from the score. -/
def calculateEarlyWarningScore (l : List VitalSign) : EarlyWarningScore :=
  mkEWS (typeScore l .heartRate + typeScore l .bloodPressure + typeScore l .temperature +
    typeScore l .spO2 + typeScore l .respiratoryRate)

lemma scoreFor_le (t : VType) (v : ℚ) : scoreFor t v ≤ 3 := by
  cases t <;> simp only [scoreFor] <;> split_ifs <;> omega

lemma typeScore_le (l : List VitalSign) (t : VType) : typeScore l t ≤ 3 := by
  rw [typeScore]
  cases h : latest l t
  · exact Nat.zero_le 3
  · exact scoreFor_le t _

lemma mkEWS_score (s : ℕ) : (mkEWS s).score = s := by
  rw [mkEWS]
  split_ifs <;> rfl

theorem calculateEWS_score_structure (l : List VitalSign) :
    (calculateEarlyWarningScore l).score =
      typeScore l .heartRate + typeScore l .bloodPressure + typeScore l .temperature +
        typeScore l .spO2 + typeScore l .respiratoryRate ∧
    (∀ t, typeScore l t ≤ 3) ∧
    (calculateEarlyWarningScore l).score ≤ 15 ∧
    (∀ t : VType, ∀ vs ∈ l, vs.type = t →
      ∃ cur, latest l t = some cur ∧ cur.type = t ∧ cur ∈ l ∧
        vs.timestamp ≤ cur.timestamp) := by
  refine ⟨mkEWS_score _, typeScore_le l, ?_, ?_⟩
  · rw [calculateEarlyWarningScore, mkEWS_score]
    have h1 := typeScore_le l .heartRate
    have h2 := typeScore_le l .bloodPressure
    have h3 := typeScore_le l .temperature
    have h4 := typeScore_le l .spO2
    have h5 := typeScore_le l .respiratoryRate
    omega
  · intro t vs hvs hty
    obtain ⟨c, hc⟩ := latest_isSome l t vs hvs hty
    have hc' : l.foldl (latestStep t) none = some c := hc
    obtain ⟨hmem, htype, _, hall⟩ := foldl_latestStep_spec t l none c hc'
    refine ⟨c, hc, htype (by simp), ?_, hall vs hvs hty⟩
    rcases hmem with h | h
    · exact h
    · simp at h

theorem calculateEWS_score_structure_witness :
    ∃ cur, latest [(⟨.heartRate, 120, 0⟩ : VitalSign)] .heartRate = some cur ∧
      cur.type = .heartRate ∧ cur ∈ [(⟨.heartRate, 120, 0⟩ : VitalSign)] ∧
      (⟨.heartRate, 120, 0⟩ : VitalSign).timestamp ≤ cur.timestamp :=
  (calculateEWS_score_structure [⟨.heartRate, 120, 0⟩]).2.2.2 .heartRate
    ⟨.heartRate, 120, 0⟩ (List.mem_singleton.mpr rfl) rfl

/-- The recommendations as a function of the risk level alone. -/
def recommendationsFor (risk : String) : List String :=
  if risk = "critical" then criticalRecs
  else if risk = "high" then highRecs
  else if risk = "medium" then mediumRecs
  else lowRecs

/-- **C3**: the risk level returned by `calculate_early_warning_score` is a
function of the score alone — "critical" iff score ≥ 7, "high" iff
5 ≤ score ≤ 6, "medium" iff 3 ≤ score ≤ 4, "low" iff score ≤ 2 — and the
recommendations list is fully determined by the risk level. -/
theorem calculateEWS_risk_level (l : List VitalSign) :
    ((calculateEarlyWarningScore l).riskLevel = "critical" ↔
        7 ≤ (calculateEarlyWarningScore l).score) ∧
    ((calculateEarlyWarningScore l).riskLevel = "high" ↔
        5 ≤ (calculateEarlyWarningScore l).score ∧ (calculateEarlyWarningScore l).score ≤ 6) ∧
    ((calculateEarlyWarningScore l).riskLevel = "medium" ↔
        3 ≤ (calculateEarlyWarningScore l).score ∧ (calculateEarlyWarningScore l).score ≤ 4) ∧
    ((calculateEarlyWarningScore l).riskLevel = "low" ↔
        (calculateEarlyWarningScore l).score ≤ 2) ∧
    (calculateEarlyWarningScore l).recommendations =
      recommendationsFor (calculateEarlyWarningScore l).riskLevel := by
  rw [calculateEarlyWarningScore, mkEWS]
  split_ifs with h1 h2 h3 <;>
    simp only [recommendationsFor] <;>
    refine ⟨?_, ?_, ?_, ?_⟩ <;>
    simp <;>
    omega

/-- Insertion used by `sortByTs`: a reading goes in front of the first entry
whose timestamp is not smaller. -/
def insertByTs (vs : VitalSign) : List VitalSign → List VitalSign
  | [] => [vs]
  | y :: ys => if vs.timestamp ≤ y.timestamp then vs :: y :: ys else y :: insertByTs vs ys

/-- `signs.sort(key=lambda x: x.timestamp)`: a stable sort by timestamp.
Python's sort is stable, this insertion sort is stable, and any two stable
sorts by the same (total, transitive) key comparison agree. -/
def sortByTs : List VitalSign → List VitalSign
  | [] => []
  | vs :: rest => insertByTs vs (sortByTs rest)

/-- Dot product of two lists of rationals (`sum(x_i * y_i)`). -/
def dotQ (x y : List ℚ) : ℚ := (List.zipWith (· * ·) x y).sum

/-- The closed form of `np.polyfit(x, y, 1)[0]`, the least-squares slope
`(n·Σxy - Σx·Σy) / (n·Σx² - (Σx)²)`.  When every x coincides the denominator
is 0 and ℚ-division yields 0, which agrees with the minimum-norm solution
numpy's least-squares solver returns for the rank-deficient system. -/
def lsSlope (x y : List ℚ) : ℚ :=
  ((x.length : ℚ) * dotQ x y - x.sum * y.sum) /
    ((x.length : ℚ) * dotQ x x - x.sum ^ 2)

/-- Placeholder reading used only as the default of `headD`/`getLastD` on
lists every caller has checked to be nonempty. -/
def defaultVS : VitalSign := ⟨.heartRate, 0, 0⟩

/-- The trend record (`models.TrendAnalysis`). -/
structure TrendAnalysis where
  type : VType
  trend : String
  changePercentage : ℚ
  confidence : ℚ
  periodDays : ℕ
deriving DecidableEq

/-- `change_percentage` of `analyze_trends` on a time-sorted group:
`(slope * (timestamps[-1] - timestamps[0])) / values[0] * 100`, where the
regression abscissas are the seconds elapsed since the earliest reading. -/
def changePctOf (sorted : List VitalSign) : ℚ :=
  lsSlope (sorted.map fun vs => vs.timestamp - (sorted.headD defaultVS).timestamp)
      (sorted.map fun vs => vs.value) *
      ((sorted.getLastD defaultVS).timestamp - (sorted.headD defaultVS).timestamp) /
    (sorted.headD defaultVS).value * 100

/-- Per-type body of `analyze_trends`: groups with fewer than 2 readings are
skipped (which also makes the source's inner `len(x) > 1` check always true);
otherwise one trend record is produced from the time-sorted group. -/
def trendFor (t : VType) (signs : List VitalSign) : List TrendAnalysis :=
  if signs.length < 2 then []
  else
    [{ type := t,
       trend :=
         if |changePctOf (sortByTs signs)| < 5 then "stable"
         else if 0 < changePctOf (sortByTs signs) then "increasing"
         else "decreasing",
       changePercentage := changePctOf (sortByTs signs),
       confidence := min (|changePctOf (sortByTs signs)| / 10) 1,
       periodDays := 7 }]

/-- `AIAnalysisService.analyze_trends`. -/
def analyzeTrends (l : List VitalSign) : List TrendAnalysis :=
  (typesInOrder l).flatMap fun t => trendFor t (group l t)

lemma trendFor_type {t : VType} {signs : List VitalSign} {e : TrendAnalysis}
    (h : e ∈ trendFor t signs) : e.type = t := by
  rw [trendFor] at h
  split at h
  · simp at h
  · simp only [List.mem_singleton] at h
    rw [h]

lemma mem_typesInOrder_of_group {l : List VitalSign} {t : VType}
    (h : group l t ≠ []) : t ∈ typesInOrder l := by
  rw [mem_typesInOrder]
  rcases hg : group l t with _ | ⟨vs, rest⟩
  · exact absurd hg h
  · have : vs ∈ group l t := hg ▸ List.mem_cons_self _ _
    rw [group, List.mem_filter] at this
    exact ⟨vs, this.1, by simpa using this.2⟩

/-- **C4**: for every type with at least 2 readings, `analyze_trends` produces
exactly one trend entry whose change percentage is
`slope · (latest timestamp - earliest timestamp) / earliest value · 100` with
the least-squares slope of value against seconds since the earliest reading,
labelled "stable" iff `|change| < 5`, "increasing" iff `change ≥ 5`,
"decreasing" iff `change ≤ -5`, with confidence `min(|change|/10, 1)`; types
with fewer than 2 readings produce no entry. -/
theorem analyzeTrends_characterization (l : List VitalSign) (t : VType) :
    ((group l t).length < 2 →
      (analyzeTrends l).filter (fun e => decide (e.type = t)) = []) ∧
    (2 ≤ (group l t).length →
      ∃ e, (analyzeTrends l).filter (fun e => decide (e.type = t)) = [e] ∧
        e.type = t ∧
        e.changePercentage = changePctOf (sortByTs (group l t)) ∧
        (e.trend = "stable" ↔ |e.changePercentage| < 5) ∧
        (e.trend = "increasing" ↔ 5 ≤ e.changePercentage) ∧
        (e.trend = "decreasing" ↔ e.changePercentage ≤ -5) ∧
        e.confidence = min (|e.changePercentage| / 10) 1 ∧
        e.periodDays = 7) := by
  have hflt : (analyzeTrends l).filter (fun e => decide (e.type = t)) =
      if t ∈ typesInOrder l then trendFor t (group l t) else [] := by
    rw [analyzeTrends]
    exact filter_flatMap_type TrendAnalysis.type _ _ t
      (fun t' e he => trendFor_type he) (nodup_typesInOrder l)
  constructor
  · intro hlen
    rw [hflt]
    split
    · rw [trendFor, if_pos hlen]
    · rfl
  · intro hlen
    have hne : group l t ≠ [] := by
      intro hg
      rw [hg] at hlen
      simp at hlen
    rw [hflt, if_pos (mem_typesInOrder_of_group hne), trendFor, if_neg (by omega)]
    refine ⟨_, rfl, rfl, rfl, ?_, ?_, ?_, rfl, rfl⟩
    · by_cases h1 : |changePctOf (sortByTs (group l t))| < 5
      · simp only [if_pos h1]
        simpa using h1
      · rw [if_neg h1]
        by_cases h2 : 0 < changePctOf (sortByTs (group l t))
        · rw [if_pos h2]
          constructor
          · intro hc
            exact absurd hc (by simp)
          · intro hc
            exact absurd hc h1
        · rw [if_neg h2]
          constructor
          · intro hc
            exact absurd hc (by simp)
          · intro hc
            exact absurd hc h1
    · by_cases h1 : |changePctOf (sortByTs (group l t))| < 5
      · rw [if_pos h1]
        constructor
        · intro hc
          exact absurd hc (by simp)
        · intro hc
          have := le_abs_self (changePctOf (sortByTs (group l t)))
          exfalso
          linarith
      · rw [if_neg h1]
        push_neg at h1
        by_cases h2 : 0 < changePctOf (sortByTs (group l t))
        · rw [if_pos h2]
          have habs : |changePctOf (sortByTs (group l t))| =
              changePctOf (sortByTs (group l t)) := abs_of_pos h2
          rw [habs] at h1
          simp [h1]
        · rw [if_neg h2]
          push_neg at h2
          constructor
          · intro hc
            exact absurd hc (by simp)
          · intro hc
            linarith
    · by_cases h1 : |changePctOf (sortByTs (group l t))| < 5
      · rw [if_pos h1]
        constructor
        · intro hc
          exact absurd hc (by simp)
        · intro hc
          have := neg_abs_le (changePctOf (sortByTs (group l t)))
          exfalso
          linarith
      · rw [if_neg h1]
        push_neg at h1
        by_cases h2 : 0 < changePctOf (sortByTs (group l t))
        · rw [if_pos h2]
          constructor
          · intro hc
            exact absurd hc (by simp)
          · intro hc
            linarith
        · rw [if_neg h2]
          push_neg at h2
          have habs : |changePctOf (sortByTs (group l t))| =
              -changePctOf (sortByTs (group l t)) := abs_of_nonpos h2
          rw [habs] at h1
          constructor
          · intro _
            linarith
          · intro _
            rfl

/-- Two heart-rate readings rising from 10 to 20 over 100 seconds: change
percentage 100, trend "increasing", confidence 1. -/
def trendExampleList : List VitalSign :=
  [⟨.heartRate, 10, 0⟩, ⟨.heartRate, 20, 100⟩]

theorem analyzeTrends_characterization_witness :
    ((analyzeTrends trendExampleList).filter
        (fun e => decide (e.type = VType.bloodPressure)) = []) ∧
    (∃ e, (analyzeTrends trendExampleList).filter
        (fun e => decide (e.type = VType.heartRate)) = [e] ∧
      e.type = VType.heartRate ∧
      e.changePercentage = changePctOf (sortByTs (group trendExampleList VType.heartRate)) ∧
      (e.trend = "stable" ↔ |e.changePercentage| < 5) ∧
      (e.trend = "increasing" ↔ 5 ≤ e.changePercentage) ∧
      (e.trend = "decreasing" ↔ e.changePercentage ≤ -5) ∧
      e.confidence = min (|e.changePercentage| / 10) 1 ∧
      e.periodDays = 7) :=
  ⟨(analyzeTrends_characterization trendExampleList VType.bloodPressure).1 (by decide),
   (analyzeTrends_characterization trendExampleList VType.heartRate).2 (by decide)⟩

/-- `SymptomsService._get_trimester`: trimester label from weeks pregnant. -/
def getTrimester (weeks : ℤ) : String :=
  if weeks ≤ 0 then "all"
  else if weeks ≤ 13 then "first"
  else if weeks ≤ 26 then "second"
  else if weeks ≤ 42 then "third"
  else "all"

/-- **C10**: `_get_trimester` is total on the integers, always returns one of
the four strings, and the cases partition the integers: "all" iff
`weeks ≤ 0` or `weeks > 42`, "first" iff `1 ≤ weeks ≤ 13`, "second" iff
`14 ≤ weeks ≤ 26`, "third" iff `27 ≤ weeks ≤ 42`. -/
theorem getTrimester_partition (w : ℤ) :
    (getTrimester w = "all" ↔ w ≤ 0 ∨ 42 < w) ∧
    (getTrimester w = "first" ↔ 1 ≤ w ∧ w ≤ 13) ∧
    (getTrimester w = "second" ↔ 14 ≤ w ∧ w ≤ 26) ∧
    (getTrimester w = "third" ↔ 27 ≤ w ∧ w ≤ 42) ∧
    getTrimester w ∈ ["all", "first", "second", "third"] := by
  rw [getTrimester]
  split_ifs with h1 h2 h3 h4
  · exact ⟨iff_of_true rfl (Or.inl h1),
      iff_of_false (by decide) (by omega),
      iff_of_false (by decide) (by omega),
      iff_of_false (by decide) (by omega), by decide⟩
  · exact ⟨iff_of_false (by decide) (by omega),
      iff_of_true rfl (by omega),
      iff_of_false (by decide) (by omega),
      iff_of_false (by decide) (by omega), by decide⟩
  · exact ⟨iff_of_false (by decide) (by omega),
      iff_of_false (by decide) (by omega),
      iff_of_true rfl (by omega),
      iff_of_false (by decide) (by omega), by decide⟩
  · exact ⟨iff_of_false (by decide) (by omega),
      iff_of_false (by decide) (by omega),
      iff_of_false (by decide) (by omega),
      iff_of_true rfl (by omega), by decide⟩
  · exact ⟨iff_of_true rfl (by omega),
      iff_of_false (by decide) (by omega),
      iff_of_false (by decide) (by omega),
      iff_of_false (by decide) (by omega), by decide⟩

/-- A generated answer: the dictionary `{'text': ..., 'disclaimers': ...}`
every path of `analyze_symptoms` returns.  Returning a value of this type is
the Lean rendering of "never raises and always returns a dictionary
containing 'text' and 'disclaimers'". -/
structure SymptomResponse where
  text : String
  disclaimers : String
deriving DecidableEq

/-- Default of the `DISCLAIMER_TEXT` environment variable. -/
def defaultDisclaimer : String :=
  "This information is educational and not a medical diagnosis."

/-- The external world one call of `analyze_symptoms` observes: whether the
Qdrant and OpenAI clients are configured, and the outcome (result or raised
exception) of the vector search, the primary LLM call and the fallback LLM
call.  A suggestion is modelled by its text. -/
structure SymptomsWorld where
  qdrantOk : Bool
  searchOutcome : Except Unit (List String)
  openaiOk : Bool
  llmOutcome : Except Unit String
  fallbackLlmOutcome : Except Unit String

/-- `SymptomsService.retrieve_knowledge`: returns the formatted hits of the
vector search, and `[]` when no client is configured or the search raises
(the internal `except` swallows every exception).  The query and the week
(through `_get_trimester`, which selects the search filter) only influence
the search outcome recorded in the world. -/
def retrieveKnowledge (w : SymptomsWorld) (q : String) (weeks : ℤ) : List String :=
  if w.qdrantOk then
    match w.searchOutcome with
    | .ok hits => hits
    | .error _ => []
  else []

/-- `SymptomsService.generate_llm_response`: `None` when no OpenAI client is
configured or no suggestions were given, the LLM text on success, `None`
when the call raises. -/
def generateLLMResponse (w : SymptomsWorld) (q : String) (weeks : ℤ)
    (suggestions : List String) : Option SymptomResponse :=
  if w.openaiOk = false ∨ suggestions = [] then none
  else
    match w.llmOutcome with
    | .ok text => some ⟨text, defaultDisclaimer⟩
    | .error _ => none

/-- `SymptomsService.generate_fallback_response`: an LLM-generated fallback
when a client is configured (with a hard-coded answer should that call
raise), otherwise the static fallback text; never raises. -/
def generateFallbackResponse (w : SymptomsWorld) (q : String) (weeks : ℤ) :
    SymptomResponse :=
  if w.openaiOk then
    match w.fallbackLlmOutcome with
    | .ok text => ⟨text, defaultDisclaimer⟩
    | .error _ =>
        ⟨"Please consult your healthcare provider for personalized advice.",
         "This information is educational and not a medical diagnosis."⟩
  else
    ⟨"General guidance: rest, hydrate, track symptoms, avoid triggers, and contact your prenatal provider for advice.",
     defaultDisclaimer⟩

/-- `SymptomsService.analyze_symptoms`: retrieve knowledge; when suggestions
exist and the LLM answers, return the LLM response; otherwise return the
fallback. -/
def analyzeSymptoms (w : SymptomsWorld) (q : String) (weeks : ℤ) : SymptomResponse :=
  if retrieveKnowledge w q weeks ≠ [] then
    match generateLLMResponse w q weeks (retrieveKnowledge w q weeks) with
    | some r => r
    | none => generateFallbackResponse w q weeks
  else generateFallbackResponse w q weeks

/-- **C6**: `analyze_symptoms` is total (it returns a `SymptomResponse`, the
dictionary with 'text' and 'disclaimers', on every input); it returns the
LLM response generated from the retrieved knowledge whenever retrieval
yields at least one suggestion and the LLM call succeeds, and in every other
case (no suggestions, or LLM failure) it returns the fallback response. -/
theorem analyzeSymptoms_spec (w : SymptomsWorld) (q : String) (weeks : ℤ) :
    (∀ r, generateLLMResponse w q weeks (retrieveKnowledge w q weeks) = some r →
       analyzeSymptoms w q weeks = r) ∧
    ((retrieveKnowledge w q weeks = [] ∨
      generateLLMResponse w q weeks (retrieveKnowledge w q weeks) = none) →
       analyzeSymptoms w q weeks = generateFallbackResponse w q weeks) := by
  constructor
  · intro r h
    rw [analyzeSymptoms]
    by_cases hs : retrieveKnowledge w q weeks = []
    · exfalso
      rw [generateLLMResponse] at h
      rw [if_pos (Or.inr hs)] at h
      exact Option.noConfusion h
    · rw [if_pos hs, h]
  · intro h
    rw [analyzeSymptoms]
    by_cases hs : retrieveKnowledge w q weeks = []
    · rw [if_neg (by simpa using hs)]
    · rw [if_pos hs]
      rcases h with h | h
      · exact absurd h hs
      · rw [h]

/-- A world where retrieval returns one suggestion and the LLM succeeds. -/
def worldLLM : SymptomsWorld :=
  ⟨true, .ok ["ginger tea may ease nausea"], true, .ok "llm answer", .ok "fallback answer"⟩

/-- A world with no Qdrant client, so retrieval yields no suggestions. -/
def worldNoKnowledge : SymptomsWorld :=
  ⟨false, .ok [], true, .ok "llm answer", .ok "fallback answer"⟩

theorem analyzeSymptoms_spec_witness :
    analyzeSymptoms worldLLM "nausea" 10 = ⟨"llm answer", defaultDisclaimer⟩ ∧
    analyzeSymptoms worldNoKnowledge "nausea" 10 =
      generateFallbackResponse worldNoKnowledge "nausea" 10 :=
  ⟨(analyzeSymptoms_spec worldLLM "nausea" 10).1 _ (by decide),
   (analyzeSymptoms_spec worldNoKnowledge "nausea" 10).2 (Or.inl (by decide))⟩

/-- ASCII lowercasing (`filename.lower()` / `content_type` handling). -/
def lowerStr (s : String) : String := ⟨s.data.map Char.toLower⟩

/-- The whitespace characters Python's `str.strip()` removes (ASCII). -/
def isSpacePy (c : Char) : Bool :=
  c = ' ' ∨ c = '\t' ∨ c = '\n' ∨ c = '\r' ∨ c = '\x0b' ∨ c = '\x0c'

/-- `str.strip()` on a character list. -/
def stripChars (l : List Char) : List Char :=
  ((l.dropWhile isSpacePy).reverse.dropWhile isSpacePy).reverse

/-- `content_type.split(';')[0].strip()` from `validate_file_type`: the
characters before the first ';', stripped. -/
def baseContentType (ct : String) : String :=
  ⟨stripChars (ct.data.takeWhile fun c => c ≠ ';')⟩

/-- The characters after the last '/' (`os.path` basename, POSIX rules). -/
def basenameChars (l : List Char) : List Char :=
  l.foldl (fun acc c => if c = '/' then [] else acc ++ [c]) []

/-- The extension of a basename under `os.path.splitext` rules: the suffix
from the last dot, except that a basename whose characters before that dot
are all dots (e.g. `.bashrc`, `..pdf`) has no extension. -/
def extChars (b : List Char) : List Char :=
  let r := b.reverse
  let pre := r.takeWhile fun c => c ≠ '.'
  if pre.length = r.length then []
  else if (r.drop (pre.length + 1)).all fun c => c = '.' then []
  else '.' :: pre.reverse

/-- `os.path.splitext(filename.lower())[1]` from `get_file_type`. -/
def splitextExt (filename : String) : String :=
  ⟨extChars (basenameChars (lowerStr filename).data)⟩

/-- The file-type classification of `VitalOCRService.get_file_type`. -/
inductive FileType where
  | pdf
  | text
  | image
  | unknown
deriving DecidableEq

/-- `self.supported_formats`, checked in dict insertion order (the extension
sets are disjoint, so the order is immaterial). -/
def fileTypeOfExt (ext : String) : FileType :=
  if ext ∈ [".pdf"] then .pdf
  else if ext ∈ [".txt", ".doc", ".docx"] then .text
  else if ext ∈ [".jpg", ".jpeg", ".png", ".bmp", ".tiff", ".tif"] then .image
  else .unknown

/-- `VitalOCRService.get_file_type`. -/
def getFileType (filename : String) : FileType :=
  fileTypeOfExt (splitextExt filename)

/-- `self.allowed_types` of `VitalOCRService.__init__`. -/
def allowedTypes : List String :=
  ["image/jpeg", "image/png", "image/gif", "image/bmp", "image/tiff", "image/tif",
   "application/pdf", "application/x-pdf", "binary/octet-stream",
   "text/plain", "text/plain; charset=utf-8", "text/plain; charset=iso-8859-1",
   "application/vnd.openxmlformats-officedocument.wordprocessingml.document",
   "application/msword", "application/vnd.ms-word",
   "application/octet-stream", "application/binary", "binary/pdf",
   "application/force-download", "content/unknown", "application/x-download",
   "application/unknown"]

/-- The generic binary content types `validate_file_type` special-cases. -/
def genericBinaryTypes : List String :=
  ["application/octet-stream", "binary/octet-stream", "application/binary"]

/-- The unknown content types `validate_file_type` special-cases. -/
def unknownContentTypes : List String :=
  ["content/unknown", "application/unknown", "unknown"]

/-- `VitalOCRService.validate_file_type`. -/
def validateFileType (contentType filename : String) : Bool :=
  if contentType = "" then decide (getFileType filename ≠ FileType.unknown)
  else if contentType ∈ allowedTypes then true
  else if baseContentType contentType ∈ allowedTypes then true
  else if contentType ∈ genericBinaryTypes then decide (getFileType filename ≠ FileType.unknown)
  else if contentType ∈ unknownContentTypes then decide (getFileType filename ≠ FileType.unknown)
  else decide (getFileType filename ≠ FileType.unknown)

/-- **C7**: `validate_file_type` accepts exactly when the content type is in
the allowed list (directly, or after stripping ';'-parameters), or the
lowercased filename extension belongs to a supported format; in particular a
supported extension is accepted regardless of the declared content type, and
a file is rejected only when both checks fail. -/
theorem validateFileType_iff (ct filename : String) :
    validateFileType ct filename = true ↔
      ct ∈ allowedTypes ∨ baseContentType ct ∈ allowedTypes ∨
        getFileType filename ≠ FileType.unknown := by
  rw [validateFileType]
  split_ifs with h0 h1 h2 h3 h4
  · subst h0
    have hA : ("" : String) ∉ allowedTypes := by decide
    have hB : baseContentType "" ∉ allowedTypes := by decide
    simp [hA, hB]
  · simp [h1]
  · simp [h2]
  · simp [h1, h2]
  · simp [h1, h2]
  · simp [h1, h2]

lemma insertByTs_perm (vs : VitalSign) (l : List VitalSign) :
    (insertByTs vs l).Perm (vs :: l) := by
  induction l with
  | nil => exact List.Perm.refl _
  | cons y ys ih =>
    rw [insertByTs]
    split_ifs
    · exact List.Perm.refl _
    · exact (List.Perm.cons y ih).trans (List.Perm.swap vs y ys)

lemma sortByTs_perm (l : List VitalSign) : (sortByTs l).Perm l := by
  induction l with
  | nil => exact List.Perm.refl _
  | cons vs rest ih =>
    rw [sortByTs]
    exact (insertByTs_perm vs (sortByTs rest)).trans (List.Perm.cons vs ih)

/-- State-passing rendering of `detect_anomalies`: the body only appends to
the freshly allocated `by_type` lists and never writes to the input list or
to a reading, so the input emerges unchanged beside the result. -/
def detectAnomaliesProc (input : List VitalSign) :
    List VitalSign × List AnomalyDetection :=
  (input, (typesInOrder input).flatMap fun t => anomaliesFor t (group input t))

/-- State-passing rendering of `analyze_trends`: the only in-place mutation
in the three analysis functions, `signs.sort(key=...)`, targets the freshly
allocated `by_type` group lists, never the input list, which is returned
unchanged beside the result. -/
def analyzeTrendsProc (input : List VitalSign) :
    List VitalSign × List TrendAnalysis :=
  (input, (typesInOrder input).flatMap fun t => trendFor t (group input t))

/-- State-passing rendering of `calculate_early_warning_score`: the body
only reads the input. -/
def calculateEWSProc (input : List VitalSign) :
    List VitalSign × EarlyWarningScore :=
  (input, calculateEarlyWarningScore input)

/-- **C5**: the three analysis functions leave the input list untouched — the
state-passing renderings return the input list itself, with the same readings
in the same order and every field unchanged, beside exactly the pure results;
the sorting of `analyze_trends` happens on the per-type groupings, which
remain permutations of the untouched groups of the input. -/
theorem analysis_functions_pure (l : List VitalSign) :
    (detectAnomaliesProc l).1 = l ∧ (detectAnomaliesProc l).2 = detectAnomalies l ∧
    (analyzeTrendsProc l).1 = l ∧ (analyzeTrendsProc l).2 = analyzeTrends l ∧
    (calculateEWSProc l).1 = l ∧ (calculateEWSProc l).2 = calculateEarlyWarningScore l ∧
    ∀ t, (sortByTs (group l t)).Perm (group l t) :=
  ⟨rfl, rfl, rfl, rfl, rfl, rfl, fun t => sortByTs_perm (group l t)⟩

/-- A division that records division by zero instead of defaulting it. -/
def checkedDiv (a b : ℚ) : Option ℚ := if b = 0 then none else some (a / b)

/-- `np.mean` with its division by the length checked. -/
def meanChecked (xs : List ℚ) : Option ℚ := checkedDiv xs.sum xs.length

/-- The z-score computation with its division by the variance checked; the
source guards it with `if std_val > 0`. -/
def zScoreSqChecked (v m sv : ℚ) : Option ℚ :=
  if 0 < sv then checkedDiv ((v - m) ^ 2) sv else some 0

/-- Sequencing of fallible computations over a list. -/
def mapOpt {α β : Type} (f : α → Option β) : List α → Option (List β)
  | [] => some []
  | a :: rest =>
    match f a, mapOpt f rest with
    | some b, some bs => some (b :: bs)
    | _, _ => none

/-- `detect_anomalies` per-type body with every division checked. -/
def anomaliesForChecked (t : VType) (signs : List VitalSign) :
    Option (List AnomalyDetection) :=
  if signs.length < 3 then some []
  else
    (meanChecked (valuesOf signs)).bind fun m =>
      (meanChecked ((valuesOf signs).map fun v => (v - m) ^ 2)).bind fun sv =>
        (mapOpt (fun vs => (zScoreSqChecked vs.value m sv).map fun z => (vs, z)) signs).bind
          fun pairs =>
            some ((pairs.filter fun p => decide (anomalyThreshold ^ 2 < p.2)).map
              fun p => { type := t, isAnomaly := true, value := p.1.value,
                         mean := m, variance := sv })

/-- `detect_anomalies` with every division checked. -/
def detectAnomaliesChecked (l : List VitalSign) : Option (List AnomalyDetection) :=
  (mapOpt (fun t => anomaliesForChecked t (group l t)) (typesInOrder l)).map List.flatten

/-- The value of the chronologically earliest reading of a group
(`values[0]` after the sort), the unguarded divisor of `analyze_trends`. -/
def earliestValue (g : List VitalSign) : ℚ := ((sortByTs g).headD defaultVS).value

/-- `change_percentage` with its division by `values[0]` checked.  The slope
itself comes from numpy's least-squares solver, which performs no division by
a data-dependent zero (see `lsSlope`), and the `/10` in the confidence is by
a constant; the only data-dependent divisor is `values[0]`. -/
def changePctChecked (sorted : List VitalSign) : Option ℚ :=
  (checkedDiv
      (lsSlope (sorted.map fun vs => vs.timestamp - (sorted.headD defaultVS).timestamp)
          (sorted.map fun vs => vs.value) *
        ((sorted.getLastD defaultVS).timestamp - (sorted.headD defaultVS).timestamp))
      (sorted.headD defaultVS).value).map fun q => q * 100

/-- `analyze_trends` per-type body with the division checked. -/
def trendForChecked (t : VType) (signs : List VitalSign) : Option (List TrendAnalysis) :=
  if signs.length < 2 then some []
  else
    (changePctChecked (sortByTs signs)).map fun cp =>
      [{ type := t,
         trend := if |cp| < 5 then "stable" else if 0 < cp then "increasing" else "decreasing",
         changePercentage := cp,
         confidence := min (|cp| / 10) 1,
         periodDays := 7 }]

/-- `analyze_trends` with the division checked. -/
def analyzeTrendsChecked (l : List VitalSign) : Option (List TrendAnalysis) :=
  (mapOpt (fun t => trendForChecked t (group l t)) (typesInOrder l)).map List.flatten

/-- The precondition of C8: every type with at least 2 readings has a nonzero
chronologically earliest value. -/
def trendsSafe (l : List VitalSign) : Bool :=
  allVTypes.all fun t =>
    decide ((group l t).length < 2) || decide (earliestValue (group l t) ≠ 0)

lemma mapOpt_eq_map {α β : Type} (f : α → Option β) (g : α → β) (l : List α)
    (h : ∀ a ∈ l, f a = some (g a)) : mapOpt f l = some (l.map g) := by
  induction l with
  | nil => rfl
  | cons a rest ih =>
    have h1 := h a (List.mem_cons_self _ _)
    have h2 := ih fun b hb => h b (List.mem_cons_of_mem _ hb)
    simp only [mapOpt, h1, h2, List.map_cons]

lemma mapOpt_isSome_iff {α β : Type} (f : α → Option β) (l : List α) :
    (mapOpt f l).isSome ↔ ∀ a ∈ l, (f a).isSome := by
  induction l with
  | nil => simp [mapOpt]
  | cons a rest ih =>
    cases hfa : f a with
    | none => simp [mapOpt, hfa]
    | some b =>
      cases hrest : mapOpt f rest with
      | none =>
        rw [hrest] at ih
        simp only [mapOpt, hfa, hrest]
        simp only [Option.isSome_none, Bool.false_eq_true, false_iff] at ih ⊢
        push_neg at ih ⊢
        obtain ⟨c, hc, hc2⟩ := ih
        exact ⟨c, List.mem_cons_of_mem _ hc, hc2⟩
      | some bs =>
        rw [hrest] at ih
        simp only [mapOpt, hfa, hrest]
        simp only [Option.isSome_some, true_iff] at ih
        simp only [Option.isSome_some, true_iff]
        intro x hx
        rcases List.mem_cons.mp hx with rfl | hx
        · rw [hfa]; rfl
        · exact ih x hx

lemma meanChecked_eq {xs : List ℚ} (h : xs ≠ []) : meanChecked xs = some (mean xs) := by
  have hlen : (xs.length : ℚ) ≠ 0 :=
    Nat.cast_ne_zero.mpr fun h0 => h (List.length_eq_zero.mp h0)
  rw [meanChecked, checkedDiv, if_neg hlen, mean]

lemma zScoreSqChecked_eq (v m sv : ℚ) :
    zScoreSqChecked v m sv = some (zScoreSq v m sv) := by
  rw [zScoreSqChecked, zScoreSq]
  split_ifs with h
  · rw [checkedDiv, if_neg (ne_of_gt h)]
  · rfl

lemma anomaliesForChecked_eq (t : VType) (signs : List VitalSign) :
    anomaliesForChecked t signs = some (anomaliesFor t signs) := by
  rw [anomaliesForChecked, anomaliesFor]
  split_ifs with h
  · rfl
  · have hne : signs ≠ [] := by
      intro h0
      rw [h0] at h
      simp at h
    have hvne : valuesOf signs ≠ [] := by
      rw [valuesOf]
      simpa using hne
    have hv2 : ((valuesOf signs).map fun v => (v - mean (valuesOf signs)) ^ 2) ≠ [] := by
      simpa using hvne
    rw [meanChecked_eq hvne, Option.some_bind, meanChecked_eq hv2, Option.some_bind,
      mapOpt_eq_map _ (fun vs => (vs, zScoreSq vs.value (mean (valuesOf signs))
        (mean ((valuesOf signs).map fun v => (v - mean (valuesOf signs)) ^ 2)))) _
        (fun vs _ => by rw [zScoreSqChecked_eq]; rfl),
      Option.some_bind]
    rw [List.filter_map, List.map_map]
    rw [popVar]
    rfl

lemma detectAnomaliesChecked_eq (l : List VitalSign) :
    detectAnomaliesChecked l = some (detectAnomalies l) := by
  rw [detectAnomaliesChecked,
    mapOpt_eq_map _ (fun t => anomaliesFor t (group l t)) _
      (fun t _ => anomaliesForChecked_eq t _),
    Option.map_some', detectAnomalies, List.flatMap_def]

lemma isSome_map {α β : Type} (f : α → β) (x : Option α) :
    (Option.map f x).isSome = x.isSome := by
  cases x <;> rfl

lemma changePctChecked_isSome_iff (sorted : List VitalSign) :
    (changePctChecked sorted).isSome ↔ (sorted.headD defaultVS).value ≠ 0 := by
  rw [changePctChecked, checkedDiv]
  split_ifs with h
  · rw [Option.map_none']
    exact iff_of_false (by simp) (fun hne => hne h)
  · rw [Option.map_some']
    exact iff_of_true rfl h

lemma changePctChecked_eq (sorted : List VitalSign)
    (h : (sorted.headD defaultVS).value ≠ 0) :
    changePctChecked sorted = some (changePctOf sorted) := by
  rw [changePctChecked, checkedDiv, if_neg h, Option.map_some', changePctOf]

lemma trendForChecked_isSome_iff (t : VType) (signs : List VitalSign) :
    (trendForChecked t signs).isSome ↔
      (signs.length < 2 ∨ earliestValue signs ≠ 0) := by
  rw [trendForChecked]
  split_ifs with hlen
  · exact iff_of_true rfl (Or.inl hlen)
  · rw [isSome_map, changePctChecked_isSome_iff]
    constructor
    · intro hne
      exact Or.inr hne
    · rintro (hc | hc)
      · exact absurd hc hlen
      · exact hc

lemma trendForChecked_eq (t : VType) (signs : List VitalSign)
    (h : signs.length < 2 ∨ earliestValue signs ≠ 0) :
    trendForChecked t signs = some (trendFor t signs) := by
  rw [trendForChecked, trendFor]
  by_cases hlen : signs.length < 2
  · rw [if_pos hlen, if_pos hlen]
  · rw [if_neg hlen, if_neg hlen]
    have hval : ((sortByTs signs).headD defaultVS).value ≠ 0 := by
      rcases h with h | h
      · exact absurd h hlen
      · exact h
    rw [changePctChecked_eq _ hval, Option.map_some']

lemma group_eq_nil_of_not_mem {l : List VitalSign} {t : VType}
    (h : t ∉ typesInOrder l) : group l t = [] := by
  rw [group_eq_nil_iff]
  intro vs hvs hty
  exact h ((mem_typesInOrder l t).mpr ⟨vs, hvs, hty⟩)

lemma mem_allVTypes (t : VType) : t ∈ allVTypes := by
  cases t <;> decide

/-- **C8**: all divisions in the analysis functions are guarded or safe under
the stated precondition.  `detect_anomalies` never divides by zero on any
input (the z-score division is guarded by `std > 0` and the means divide by
guarded-positive lengths): its checked variant always succeeds with the same
result.  `analyze_trends`'s checked variant succeeds exactly when every type
with at least 2 readings has nonzero chronologically earliest value — the
division of the change percentage by that value is unguarded — and then
agrees with the unchecked function. -/
theorem divisions_guarded (l : List VitalSign) :
    detectAnomaliesChecked l = some (detectAnomalies l) ∧
    ((analyzeTrendsChecked l).isSome ↔ trendsSafe l = true) ∧
    (trendsSafe l = true → analyzeTrendsChecked l = some (analyzeTrends l)) := by
  have hsafe : trendsSafe l = true ↔
      ∀ t : VType, (group l t).length < 2 ∨ earliestValue (group l t) ≠ 0 := by
    rw [trendsSafe, List.all_eq_true]
    constructor
    · intro h t
      have := h t (mem_allVTypes t)
      simpa using this
    · intro h t _
      simpa using h t
  refine ⟨detectAnomaliesChecked_eq l, ?_, ?_⟩
  · rw [analyzeTrendsChecked, isSome_map, mapOpt_isSome_iff, hsafe]
    constructor
    · intro h t
      by_cases hmem : t ∈ typesInOrder l
      · rw [← trendForChecked_isSome_iff t]
        exact h t hmem
      · rw [group_eq_nil_of_not_mem hmem]
        left
        simp
    · intro h t _
      rw [trendForChecked_isSome_iff]
      exact h t
  · intro h
    rw [analyzeTrendsChecked,
      mapOpt_eq_map _ (fun t => trendFor t (group l t)) _
        (fun t _ => trendForChecked_eq t _ (hsafe.mp h t)),
      Option.map_some', analyzeTrends, List.flatMap_def]

/-- Two SpO2 readings with nonzero earliest value: the checked trend analysis
succeeds. -/
def divisionExampleList : List VitalSign :=
  [⟨.spO2, 95, 0⟩, ⟨.spO2, 97, 60⟩]

theorem divisions_guarded_witness :
    analyzeTrendsChecked divisionExampleList = some (analyzeTrends divisionExampleList) :=
  (divisions_guarded divisionExampleList).2.2 (by decide)

end MPB
